import Mathlib

/-! Verification of the JaxRK RKHS core: finite-rank feature vectors
(`jaxrk/rkhs/vector.py`) and the finite-rank operator algebra
(`jaxrk/rkhs/operator.py`).  Numeric arrays are embedded as rational
matrices carrying explicit dimensions; the kernel function, the external
numerical solver, `np.linalg.inv` and `np.linalg.pinv` enter as
parameters, matching the spec's external-capability boundary. -/

namespace JaxRK

/-- Python-level runtime failures surfaced by the embedded code. -/
inductive PyErr where
  | valueError (msg : String)
  | assertionError
  | typeError
  | indexError
  | runtimeError
  deriving DecidableEq

/-- A dense 2-D numeric array: explicit dimensions plus a total entry
function (entries outside the stated dimensions are irrelevant junk,
as in a C-level buffer). -/
structure Mat where
  rows : ℕ
  cols : ℕ
  entry : ℕ → ℕ → ℚ

theorem matExt {A B : Mat} (hr : A.rows = B.rows) (hc : A.cols = B.cols)
    (he : A.entry = B.entry) : A = B := by
  cases A; cases B; cases hr; cases hc; cases he; rfl

/-- Row `i` of a matrix, as a point of input space (a `D`-dimensional
coordinate function). -/
def Mat.row (m : Mat) (i : ℕ) : ℕ → ℚ := fun j => m.entry i j

/-- `np.transpose` of a 2-D array. -/
def Mat.transpose (m : Mat) : Mat :=
  Mat.mk m.cols m.rows (fun i j => m.entry j i)

/-- Matrix product `A @ B` (sum over the inner dimension of `A`). -/
def matMul (A B : Mat) : Mat :=
  Mat.mk A.rows B.cols
    (fun i j => ∑ t ∈ Finset.range A.cols, A.entry i t * B.entry t j)

/-- Elementwise sum `A + B` (numpy requires equal shapes; we keep `A`'s). -/
def matAdd (A B : Mat) : Mat :=
  Mat.mk A.rows A.cols (fun i j => A.entry i j + B.entry i j)

/-- Elementwise difference `A - B`. -/
def matSub (A B : Mat) : Mat :=
  Mat.mk A.rows A.cols (fun i j => A.entry i j - B.entry i j)

/-- Scalar times matrix, `c * A`. -/
def smulMat (c : ℚ) (A : Mat) : Mat :=
  Mat.mk A.rows A.cols (fun i j => c * A.entry i j)

/-- Scalar plus matrix (numpy broadcast `c + A`). -/
def matScalarAdd (c : ℚ) (A : Mat) : Mat :=
  Mat.mk A.rows A.cols (fun i j => c + A.entry i j)

/-- Elementwise square `A**2`. -/
def elemSq (A : Mat) : Mat :=
  Mat.mk A.rows A.cols (fun i j => A.entry i j ^ 2)

/-- `np.eye n`. -/
def eye (n : ℕ) : Mat :=
  Mat.mk n n (fun i j => if i = j then 1 else 0)

/-- `np.diag` of a 1-D vector of prefactors. -/
def diagMat (p : List ℚ) : Mat :=
  Mat.mk p.length p.length (fun i j => if i = j then p.getD i 0 else 0)

/-- `np.squeeze` for our 2-D encoding: 1-D arrays are encoded as single-row
matrices, so an `(r,1)` array squeezes to its transpose and a `(1,c)` array
is already in squeezed form. -/
def Mat.squeeze (m : Mat) : Mat :=
  if m.rows = 1 then m else if m.cols = 1 then m.transpose else m

/-- `matMul` is associative (entrywise: exchange the two finite sums). -/
theorem matMul_assoc (A B C : Mat) :
    matMul (matMul A B) C = matMul A (matMul B C) := by
  refine matExt rfl rfl ?_
  funext i j
  show ∑ t ∈ Finset.range B.cols,
        (∑ u ∈ Finset.range A.cols, A.entry i u * B.entry u t) * C.entry t j
      = ∑ u ∈ Finset.range A.cols,
        A.entry i u * ∑ t ∈ Finset.range B.cols, B.entry u t * C.entry t j
  simp only [Finset.sum_mul, Finset.mul_sum, mul_assoc]
  exact Finset.sum_comm

/-- The external kernel capability (spec section 6): an abstract kernel
index type `κ` with an interpretation giving the kernel function itself,
its intrinsic variance constant `K.var`, and the diagonal-only evaluation
`K(points, full=False)`.  Kernel equality (`K == K2`) is equality at the
index type, which the embedding requires to be decidable, matching the
capability contract "equality comparison between two kernel instances
must be supported". -/
structure KernSpec (κ : Type) where
  eval : κ → (ℕ → ℚ) → (ℕ → ℚ) → ℚ
  var : κ → ℚ
  diag : κ → Mat → Mat

/-- Gram matrix `kern(X, Y)`: pairwise kernel evaluations of rows. -/
def gramMat {κ : Type} (KS : KernSpec κ) (k : κ) (X Y : Mat) : Mat :=
  Mat.mk X.rows Y.rows (fun i j => KS.eval k (X.row i) (Y.row j))

/-- `FiniteVec` (vector.py): kernel reference, 2-D in-space point array,
1-D prefactor list, and the balanced grouping size `points_per_split`
(`none` = simple/ungrouped mode).  `row_splits` (ragged mode) is always
`None` in the source - the constructor never receives it - so it is not
carried. -/
structure FiniteVec (κ : Type) where
  k : κ
  points : Mat
  prefactors : List ℚ
  pps : Option ℕ

/-- `FiniteVec.__len__`: number of points in simple mode, floor-divided
group count in balanced mode (computed in `__init__`). -/
def FiniteVec.len {κ : Type} (v : FiniteVec κ) : ℕ :=
  match v.pps with
  | none => v.points.rows
  | some s => v.points.rows / s

/-- `FiniteVec.__init__` as a checked constructor.  The source asserts the
point array is 2-D (inherent in `Mat`), that the prefactors are 1-D
(inherent in `List`), and that their length equals the number of points;
omitted prefactors default to `1/n` (simple) or `1/points_per_split`
(balanced).  There is no divisibility check for balanced mode, but
`len(points) // 0` is a `ZeroDivisionError`, so `points_per_split = 0`
fails. -/
def FiniteVec.make {κ : Type} (k : κ) (points : Mat)
    (prefactors : Option (List ℚ)) (pps : Option ℕ) : Option (FiniteVec κ) :=
  let p := match prefactors with
    | some p => p
    | none =>
      match pps with
      | none => List.replicate points.rows ((points.rows : ℚ))⁻¹
      | some s => List.replicate points.rows ((s : ℚ))⁻¹
  if p.length = points.rows then
    match pps with
    | some s => if s = 0 then none else some (FiniteVec.mk k points p (some s))
    | none => some (FiniteVec.mk k points p none)
  else none

/-- `FiniteVec.updated`: assert equal prefactor length, then rebuild through
the constructor with the same points and grouping. -/
def FiniteVec.updated {κ : Type} (v : FiniteVec κ) (p : List ℚ) :
    Option (FiniteVec κ) :=
  if v.prefactors.length = p.length then
    FiniteVec.make v.k v.points (some p) v.pps
  else none

/-- The prefactor broadcast inside `reduce_gram`:
`gram * np.expand_dims(prefactors, (axis+1)%2)` scales rows by the
prefactors when `axis = 0` and columns when `axis = 1`. -/
def preScale (p : List ℚ) (gram : Mat) (axis : ℕ) : Mat :=
  Mat.mk gram.rows gram.cols
    (fun i j => gram.entry i j * (if axis = 0 then p.getD i 0 else p.getD j 0))

/-- Sum consecutive blocks of `s` rows (`np.reshape(g, (-1, s, g.shape[-1]))`
followed by `np.sum(axis=1)`; the reshape demands `s` divides the row
count, which every in-range use below satisfies). -/
def reduceRows (s : ℕ) (g : Mat) : Mat :=
  Mat.mk (g.rows / s) g.cols
    (fun i j => ∑ t ∈ Finset.range s, g.entry (i * s + t) j)

/-- `__reduce_balanced_ragged__` on a 2-D array: the permutation swapping
axis 0 with `axis` is the identity for `axis = 0` and the transpose for
`axis = 1`; in between, group-sum blocks of `points_per_split` rows. -/
def reduceBalanced (s : ℕ) (g : Mat) (axis : ℕ) : Mat :=
  if axis = 0 then reduceRows s g else (reduceRows s g.transpose).transpose

/-- `FiniteVec.reduce_gram`: prefactor scaling followed by the grouping
mode's reduction - the identity in simple mode, block sums in balanced
mode (ragged mode is unreachable: `row_splits` is always `None`). -/
def FiniteVec.reduce_gram {κ : Type} (v : FiniteVec κ) (gram : Mat)
    (axis : ℕ) : Mat :=
  let scaled := preScale v.prefactors gram axis
  match v.pps with
  | none => scaled
  | some s => reduceBalanced s scaled axis

/-- The shared tail of `FiniteVec.inner` for `full=True`: raw Gram matrix
of the two point sets, reduced along axis 0 by `self` and along axis 1 by
`Y` (the `astype` casts are identities over `ℚ`). -/
def innerFull {κ : Type} (KS : KernSpec κ) (v w : FiniteVec κ) : Mat :=
  w.reduce_gram (v.reduce_gram (gramMat KS v.k v.points w.points) 0) 1

/-- The message of the ambiguous-inputs `ValueError` in `FiniteVec.inner`. -/
def ambiguousMsg : String :=
  "Ambiguous inputs: `diagonal` and `y` are not compatible."

/-- `FiniteVec.inner(Y=None, full=True)`: reject `full=False` with a
non-null `Y` before anything else; `full=False` reduces the kernel's
diagonal evaluation on both axes; otherwise assert equal kernels (when
`Y` is given) and compute the doubly reduced Gram matrix. -/
def FiniteVec.inner {κ : Type} [DecidableEq κ] (KS : KernSpec κ)
    (v : FiniteVec κ) (Y : Option (FiniteVec κ)) (full : Bool) :
    Except PyErr Mat :=
  if full = false ∧ Y.isSome = true then
    .error (.valueError ambiguousMsg)
  else if full = false then
    .ok (v.reduce_gram (v.reduce_gram (KS.diag v.k v.points) 0) 1)
  else
    match Y with
    | some w =>
      if v.k = w.k then .ok (innerFull KS v w) else .error .assertionError
    | none => .ok (innerFull KS v v)

/-- With `Y=None` and `full=True`, `inner` never fails. -/
theorem inner_none_ok {κ : Type} [DecidableEq κ] (KS : KernSpec κ)
    (v : FiniteVec κ) : FiniteVec.inner KS v none true = .ok (innerFull KS v v) := rfl

/-- The pair `start, stop = (index * self.points_per_split,
index+1 * self.points_per_split)` from `__getitem_balanced__`, with
Python's precedence: the stop boundary is `index + (1 * points_per_split)`,
not `(index + 1) * points_per_split`. -/
def getitemBalancedBounds (index pps : ℕ) : ℕ × ℕ :=
  (index * pps, index + 1 * pps)

/-- `FiniteVec.__getitem_balanced__`.  After computing `(start, stop)`, the
source evaluates `self.inspace_points[start, stop]` and
`self.prefactors[start, stop]` - tuple indexing, not slices.  On the 1-D
`prefactors` array a 2-tuple index always raises `IndexError` (and the 2-D
point lookup may raise it even earlier when `stop` exceeds the column
count), so the method never returns a value. -/
def FiniteVec.getitem_balanced {κ : Type} (v : FiniteVec κ) (index : ℕ) :
    Except PyErr (FiniteVec κ) :=
  let b := getitemBalancedBounds index (v.pps.getD 0)
  .error (if b.1 < v.points.rows ∧ b.2 < v.points.cols
          then .indexError else .indexError)

/-- `FiniteVec.__call__(argument)`:
`inner(self, FiniteVec(self.k, argument, np.ones(len(argument))))` - the
comparison vector is built through the constructor with all-ones
prefactors and no `points_per_split` (`len` of a 2-D array is its row
count). -/
def FiniteVec.call {κ : Type} [DecidableEq κ] (KS : KernSpec κ)
    (v : FiniteVec κ) (argument : Mat) : Except PyErr Mat :=
  match FiniteVec.make v.k argument (some (List.replicate argument.rows 1)) none with
  | some w => FiniteVec.inner KS v (some w) true
  | none => .error .assertionError

/-- The comparison vector described by the spec's sentence for `__call__`:
a single-group vector over the query points (all of `P` forming one
group) with unit prefactors.  This follows the spec's words, for
comparison against the source's construction. -/
def singleGroupOnes {κ : Type} (k : κ) (P : Mat) : FiniteVec κ :=
  FiniteVec.mk k P (List.replicate P.rows 1) (some P.rows)

/-- `FiniteVec.get_mean_var(keepdims)`: prefactor-reduced points, variance
of expectations `reduce(points**2) - mean**2`, and the kernel's variance
constant broadcast on top; without `keepdims` both results are squeezed. -/
def FiniteVec.get_mean_var {κ : Type} (KS : KernSpec κ) (v : FiniteVec κ)
    (keepdims : Bool) : Mat × Mat :=
  let mean := v.reduce_gram v.points 0
  let variance_of_expectations :=
    matSub (v.reduce_gram (elemSq v.points) 0) (elemSq mean)
  let var := matScalarAdd (KS.var v.k) variance_of_expectations
  if keepdims then (mean, var) else (mean.squeeze, var.squeeze)

/-- The external numerical solver capability (spec section 6):
`minimize(objective, initial_point, jacobian, bounds)` returning a
solution vector and a success flag; bounds are per-coordinate
`(lower, upper)` pairs with `none` meaning unbounded. -/
structure Solver where
  run : (List ℚ → ℚ) → List ℚ → (List ℚ → List ℚ) →
        List (Option ℚ × Option ℚ) → List ℚ × Bool

/-- A solver honouring its contract: the solution has one coordinate per
bound, and each coordinate respects its lower bound. -/
def RespectsBounds (s : Solver) : Prop :=
  ∀ c i j b, (s.run c i j b).1.length = b.length ∧
    ∀ t l u, b[t]? = some (some l, u) → l ≤ (s.run c i j b).1.getD t l

/-- The two estimation objectives of `distr_estimate_optimization` (any
other string would leave `cost` unbound in the source, a `NameError`). -/
inductive Estimate where
  | support
  | density

/-- `np.dot(f, G)` for a 1-D `f` against the Gram matrix `G`. -/
def vecDotG (f : List ℚ) (G : Mat) : ℕ → ℚ :=
  fun j => ∑ i ∈ Finset.range G.rows, f.getD i 0 * G.entry i j

/-- The cost function selected inside `distr_estimate_optimization`
(`log` is the external numeric primitive passed in as `logF`). -/
def destCost {κ : Type} (logF : ℚ → ℚ) (KS : KernSpec κ) (kern : κ)
    (pts : Mat) (estimate : Estimate) : List ℚ → ℚ :=
  let G := gramMat KS kern pts pts
  match estimate with
  | .support => fun f => ∑ j ∈ Finset.range G.cols, |vecDotG f G j - 1|
  | .density => fun f => -(∑ j ∈ Finset.range G.cols, logF (vecDotG f G j))

/-- The bounds list `[(0., None)] * len(inspace_points)` passed to the
solver: an elementwise lower bound of `0`, no upper bound. -/
def destBounds (pts : Mat) : List (Option ℚ × Option ℚ) :=
  List.replicate pts.rows ((some 0 : Option ℚ), (none : Option ℚ))

/-- The initial point `rand(len(inspace_points)) + 0.0001`: the external
randomness enters as the stream `rand`. -/
def destInit (pts : Mat) (rand : ℕ → ℚ) : List ℚ :=
  (List.range pts.rows).map (fun t => rand t + 1 / 10000)

/-- The solver invocation inside `distr_estimate_optimization` (the
jacobian is `grad(cost)`, with `grad` the external autodiff capability
`gradF`). -/
def destRun {κ : Type} (s : Solver) (logF : ℚ → ℚ)
    (gradF : (List ℚ → ℚ) → List ℚ → List ℚ) (KS : KernSpec κ) (kern : κ)
    (pts : Mat) (rand : ℕ → ℚ) (estimate : Estimate) : List ℚ × Bool :=
  let cost := destCost logF KS kern pts estimate
  s.run cost (destInit pts rand) (gradF cost) (destBounds pts)

/-- `distr_estimate_optimization`: on solver success return the solution
normalised to sum 1, otherwise raise `RuntimeError()`. -/
def distr_estimate_optimization {κ : Type} (s : Solver) (logF : ℚ → ℚ)
    (gradF : (List ℚ → ℚ) → List ℚ → List ℚ) (KS : KernSpec κ) (kern : κ)
    (pts : Mat) (rand : ℕ → ℚ) (estimate : Estimate) :
    Except PyErr (List ℚ) :=
  let res := destRun s logF gradF KS kern pts rand estimate
  if res.2 then .ok (res.1.map (fun x => x / res.1.sum))
  else .error .runtimeError

/-- `FiniteOp` (operator.py): a finite-rank operator as an
(input basis, output basis, coefficient matrix) triple. -/
structure FiniteOpData (κ : Type) where
  inp_feat : FiniteVec κ
  outp_feat : FiniteVec κ
  matr : Mat

/-- The operator-with-operator branch of `multiply(A, B)`: compose into an
operator over `(B.inp_feat, A.outp_feat)` with matrix
`A.matr @ inner(A.inp_feat, B.outp_feat) @ B.matr`.  The inner product
asserts equal kernels.  (The vector branch of `multiply` is not needed by
any claim.) -/
def multiply {κ : Type} [DecidableEq κ] (KS : KernSpec κ)
    (A B : FiniteOpData κ) : Except PyErr (FiniteOpData κ) :=
  if A.inp_feat.k = B.outp_feat.k then
    .ok (FiniteOpData.mk B.inp_feat A.outp_feat
      (matMul (matMul A.matr (innerFull KS A.inp_feat B.outp_feat)) B.matr))
  else .error .assertionError

/-- `CovOp`: its fields plus the lazily memoised inverse.  The `_inv`
back-reference is an address into an explicit heap (a list of
`CovOpData`), so Python object identity becomes index identity. -/
structure CovOpData (κ : Type) where
  inp_feat : FiniteVec κ
  outp_feat : FiniteVec κ
  matr : Mat
  regul : ℚ
  inv_ref : Option ℕ

/-- `CovOp.__init__`: the stored basis is the input basis reweighted to
all-ones prefactors (`updated` asserts the length of
`np.ones(len(inp_feat))` matches), while `matr` is the diagonal of the
original prefactors; `_inv` starts unset. -/
def CovOp.make {κ : Type} (inp_feat : FiniteVec κ) (regul : ℚ) :
    Option (CovOpData κ) :=
  (inp_feat.updated (List.replicate inp_feat.len 1)).map
    (fun f => CovOpData.mk f f (diagMat inp_feat.prefactors) regul none)

/-- The two matrix lines of `CovOp.inv`:
`inv_gram = inv(inner(inp_feat) + regul * eye(len(inp_feat)))` and
`matr = matr**2 @ inv_gram @ inv_gram` (`**2` is elementwise;
`np.linalg.inv` is the external parameter `f`). -/
def covInvMat {κ : Type} (f : Mat → Mat) (KS : KernSpec κ)
    (c : CovOpData κ) : Mat :=
  let inv_gram := f (matAdd (innerFull KS c.inp_feat c.inp_feat)
    (smulMat c.regul (eye c.inp_feat.len)))
  matMul (matMul (elemSq c.matr) inv_gram) inv_gram

/-- `CovOp.inv` over the explicit heap.  An unset `_inv` is computed
once: the fresh operator is built by `CovOp(inp_feat, regul)` with its
matrix overwritten by `covInvMat` and its `_inv` pointing back at
`self`, and `self._inv` is updated in place; a set `_inv` is returned
directly. -/
def covInv {κ : Type} (f : Mat → Mat) (KS : KernSpec κ)
    (h : List (CovOpData κ)) (i : ℕ) : Option (List (CovOpData κ) × ℕ) :=
  match h[i]? with
  | none => none
  | some c =>
    match c.inv_ref with
    | some j => some (h, j)
    | none =>
      match CovOp.make c.inp_feat c.regul with
      | none => none
      | some fresh =>
        let j := h.length
        some ((h.set i (CovOpData.mk c.inp_feat c.outp_feat c.matr c.regul (some j))) ++
          [CovOpData.mk fresh.inp_feat fresh.outp_feat (covInvMat f KS c)
            fresh.regul (some i)], j)

/-- `HsTo`: transfer-operator fields. -/
structure HsToData (κ : Type) where
  inp_feat : FiniteVec κ
  outp_feat : FiniteVec κ
  matr : Mat
  embedded : Bool
  koopman : Bool

/-- Modelled from the spec: `jaxrk/rkhs/base.py` (the `Vec` base class) is
not among the sources, and the spec's data model and external-interface
contract give vectors no scalar multiplication, so the expression
`timelagged_feat * regul` in the exactly-one-flag branch of
`HsTo.__init__` is a `TypeError`.  The rest follows the source: assert
equal kernels, then either the one-flag branch (which therefore fails
before assigning `matr`) or the pseudo-inverse sandwich
`pinv(G_xy) @ pinv(G_x + len(timelagged) * regul * eye) @ G_xy`,
transposed when `koopman`, with the bases swapped for the Koopman
direction (`np.linalg.pinv` enters as the external parameter `pinv`). -/
def HsTo.make {κ : Type} [DecidableEq κ] (pinv : Mat → Mat)
    (KS : KernSpec κ) (start_feat timelagged_feat : FiniteVec κ)
    (regul : ℚ) (embedded koopman : Bool) : Except PyErr (HsToData κ) :=
  if start_feat.k = timelagged_feat.k then
    if (embedded = true ∧ koopman = false) ∨ (embedded = false ∧ koopman = true) then
      .error .typeError
    else
      let G_xy := innerFull KS start_feat timelagged_feat
      let G_x := innerFull KS start_feat start_feat
      let matr0 := matMul (matMul (pinv G_xy)
        (pinv (matAdd G_x (smulMat ((timelagged_feat.len : ℚ) * regul)
          (eye timelagged_feat.len))))) G_xy
      let matr := if koopman then matr0.transpose else matr0
      if koopman then
        .ok (HsToData.mk timelagged_feat start_feat matr embedded koopman)
      else
        .ok (HsToData.mk start_feat timelagged_feat matr embedded koopman)
  else .error .assertionError

/-! Concrete fixtures for counterexamples and witnesses: a one-kernel
capability over `Unit` whose kernel is `k(x, y) = x 0 + y 0 + 1` with
variance constant `3/2`, plus small vectors and point sets. -/

/-- A concrete kernel capability over the one-kernel index type. -/
def KSu : KernSpec Unit :=
  KernSpec.mk (fun _ x y => x 0 + y 0 + 1) (fun _ => 3 / 2) (fun _ m => m)

/-- A one-point simple vector with unit prefactor. -/
def vOnePoint : FiniteVec Unit :=
  FiniteVec.mk () (Mat.mk 1 1 (fun _ _ => 0)) [1] none

/-- A two-row query point set, points `0` and `1`. -/
def pTwo : Mat := Mat.mk 2 1 (fun i _ => (i : ℚ))

/-- The column count of an `inner`-style result (used to distinguish
matrices of different shape). -/
def exCols : Except PyErr Mat → ℕ :=
  fun r => match r with
  | .ok m => m.cols
  | .error _ => 0

/-- C1: the claim states that balanced `__getitem__ i` returns the group
slice `[i*k : (i+1)*k]` with the same kernel and group size.  The code
instead computes the stop boundary `index + 1 * points_per_split`
(Python precedence: `index + k`, not `(index+1)*k`) and then indexes
both arrays with the 2-tuple `(start, stop)` rather than a slice, which
raises `IndexError` on the 1-D prefactor array.  At `index = 1`,
`points_per_split = 2` the code's bounds are `(2, 3)` although the
claimed slice is `[2:4]`, and the call fails. -/
theorem getitem_balanced_bug :
    getitemBalancedBounds 1 2 = (2, 3) ∧ (1 + 1) * 2 = 4 ∧
    FiniteVec.getitem_balanced
      (FiniteVec.mk () (Mat.mk 4 1 (fun _ _ => 0))
        [1/2, 1/2, 1/2, 1/2] (some 2)) 1 = .error .indexError := by
  refine ⟨by decide, by decide, rfl⟩

/-- C2 (counterexample): evaluating a one-point vector at the two-point
query set is an `1 × 2` matrix of per-point evaluations, whereas the
inner product against the spec's single-group ones-vector collapses the
query axis to a single column - the two results differ. -/
theorem call_single_group_counterexample :
    FiniteVec.call KSu vOnePoint pTwo ≠
      FiniteVec.inner KSu vOnePoint (some (singleGroupOnes vOnePoint.k pTwo)) true := by
  intro hEq
  have h := congrArg exCols hEq
  have h1 : exCols (FiniteVec.call KSu vOnePoint pTwo) = 2 := rfl
  have h2 : exCols (FiniteVec.inner KSu vOnePoint
      (some (singleGroupOnes vOnePoint.k pTwo)) true) = 1 := rfl
  rw [h1, h2] at h
  exact absurd h (by decide)

/-- C2 (amended): `__call__(P)` equals `inner(self, w)` where `w` is the
*ungrouped* (simple-mode) vector over `P` with all-ones prefactors and
the same kernel - the constructor call in the source passes no
`points_per_split`, so `w` is not a single-group vector. -/
theorem call_eq_inner_ungrouped_ones {κ : Type} [DecidableEq κ]
    (KS : KernSpec κ) (v : FiniteVec κ) (P : Mat) :
    FiniteVec.make v.k P (some (List.replicate P.rows 1)) none
        = some (FiniteVec.mk v.k P (List.replicate P.rows 1) none)
    ∧ FiniteVec.call KS v P
        = FiniteVec.inner KS v
            (some (FiniteVec.mk v.k P (List.replicate P.rows 1) none)) true := by
  have hm : FiniteVec.make v.k P (some (List.replicate P.rows 1)) none
      = some (FiniteVec.mk v.k P (List.replicate P.rows 1) none) := by
    simp [FiniteVec.make]
  exact ⟨hm, by simp [FiniteVec.call, hm]⟩

/-- C6: `inner` with `full=False` and a non-null second vector fails with
the ambiguous-inputs `ValueError`; the failure does not consult the
kernel capability (the result is the same under any capability
interpretation `KS2`); and neither `full=True` nor a null `Y` can
produce that error. -/
theorem inner_ambiguous_guard {κ : Type} [DecidableEq κ]
    (KS KS2 : KernSpec κ) (v w : FiniteVec κ) :
    (FiniteVec.inner KS v (some w) false = .error (.valueError ambiguousMsg))
    ∧ (FiniteVec.inner KS v (some w) false = FiniteVec.inner KS2 v (some w) false)
    ∧ (∀ Y : Option (FiniteVec κ),
        FiniteVec.inner KS v Y true ≠ .error (.valueError ambiguousMsg))
    ∧ (∀ fl : Bool,
        FiniteVec.inner KS v none fl ≠ .error (.valueError ambiguousMsg)) := by
  refine ⟨rfl, rfl, ?_, ?_⟩
  · intro Y
    match Y with
    | none => simp [FiniteVec.inner]
    | some w2 =>
      simp only [FiniteVec.inner]
      split
      · simp_all
      · split
        · simp_all
        · split <;> simp
  · intro fl
    match fl with
    | true => simp [FiniteVec.inner]
    | false => simp [FiniteVec.inner]

/-- C7: the self inner product of an ungrouped vector is the prefactor
outer product times the Gram matrix, entry by entry:
`result[i,j] = p[i] * p[j] * K(X,X)[i,j]`. -/
theorem inner_simple_outer {κ : Type} [DecidableEq κ] (KS : KernSpec κ)
    (v : FiniteVec κ) (hs : v.pps = none)
    (hl : v.prefactors.length = v.points.rows) :
    FiniteVec.inner KS v (some v) true =
      .ok (Mat.mk v.points.rows v.points.rows (fun i j =>
        v.prefactors.getD i 0 * v.prefactors.getD j 0 *
          KS.eval v.k (v.points.row i) (v.points.row j))) := by
  obtain ⟨kk, pts, p, pps⟩ := v
  simp only at hs
  subst hs
  have h0 : FiniteVec.inner KS (FiniteVec.mk kk pts p none)
      (some (FiniteVec.mk kk pts p none)) true =
      .ok (innerFull KS (FiniteVec.mk kk pts p none) (FiniteVec.mk kk pts p none)) := by
    simp [FiniteVec.inner]
  rw [h0]
  congr 1
  refine matExt rfl rfl ?_
  funext i j
  simp [innerFull, FiniteVec.reduce_gram, preScale, gramMat]
  ring

/-- C7 witness: the theorem applied to the concrete one-point fixture. -/
theorem inner_simple_outer_witness :
    vOnePoint.pps = none
    ∧ vOnePoint.prefactors.length = vOnePoint.points.rows
    ∧ FiniteVec.inner KSu vOnePoint (some vOnePoint) true =
        .ok (Mat.mk vOnePoint.points.rows vOnePoint.points.rows (fun i j =>
          vOnePoint.prefactors.getD i 0 * vOnePoint.prefactors.getD j 0 *
            KSu.eval vOnePoint.k (vOnePoint.points.row i) (vOnePoint.points.row j))) :=
  ⟨rfl, rfl, inner_simple_outer KSu vOnePoint rfl rfl⟩

/-- C10: constructing a balanced `FiniteVec` performs no divisibility
check: any group size `0 < k ≤ n` is accepted, and the resulting length
is the floor division `n // k`. -/
theorem make_no_divisibility_check {κ : Type} (k : κ) (pts : Mat)
    (p : List ℚ) (kk : ℕ) (hp : p.length = pts.rows) (h0 : 0 < kk)
    (_hkn : kk ≤ pts.rows) :
    ∃ v : FiniteVec κ, FiniteVec.make k pts (some p) (some kk) = some v
      ∧ v.len = pts.rows / kk := by
  refine ⟨FiniteVec.mk k pts p (some kk), ?_, rfl⟩
  simp [FiniteVec.make, hp, Nat.pos_iff_ne_zero.mp h0]

/-- C10 witness: five points, group size two (which does not divide
five), length `5 / 2 = 2`. -/
theorem make_no_divisibility_check_witness :
    (List.replicate 5 (1 : ℚ)).length = (Mat.mk 5 1 (fun _ _ => 0)).rows
    ∧ 0 < 2 ∧ 2 ≤ (Mat.mk 5 1 (fun _ _ => 0)).rows
    ∧ ∃ v : FiniteVec Unit,
        FiniteVec.make () (Mat.mk 5 1 (fun _ _ => 0))
          (some (List.replicate 5 1)) (some 2) = some v
        ∧ v.len = (Mat.mk 5 1 (fun _ _ => 0)).rows / 2 :=
  ⟨by decide, by decide, by decide,
    make_no_divisibility_check () (Mat.mk 5 1 (fun _ _ => 0))
      (List.replicate 5 1) 2 (by decide) (by decide) (by decide)⟩

/-- C8: in balanced mode with per-group prefactors summing to 1,
`get_mean_var` returns, per group and coordinate, the prefactor-weighted
group sum of the points as the mean and
`kernel.var + E[X²] - E[X]²` as the variance (weighted group sum of the
squared points minus the squared mean, shifted by the kernel's intrinsic
variance constant); the formulas hold for every point dimension. -/
theorem get_mean_var_law {κ : Type} (KS : KernSpec κ) (v : FiniteVec κ)
    (g : ℕ) (hg : v.pps = some g) (_h0 : 0 < g)
    (_hdvd : g ∣ v.points.rows)
    (_hl : v.prefactors.length = v.points.rows)
    (_hsum : ∀ i < v.points.rows / g,
      (∑ t ∈ Finset.range g, v.prefactors.getD (i * g + t) 0) = 1) :
    FiniteVec.get_mean_var KS v true =
      (Mat.mk (v.points.rows / g) v.points.cols (fun i j =>
         ∑ t ∈ Finset.range g,
           v.prefactors.getD (i * g + t) 0 * v.points.entry (i * g + t) j),
       Mat.mk (v.points.rows / g) v.points.cols (fun i j =>
         KS.var v.k
         + (∑ t ∈ Finset.range g,
             v.prefactors.getD (i * g + t) 0 * (v.points.entry (i * g + t) j) ^ 2)
         - (∑ t ∈ Finset.range g,
             v.prefactors.getD (i * g + t) 0 * v.points.entry (i * g + t) j) ^ 2)) := by
  obtain ⟨kk, pts, p, pps⟩ := v
  simp only at hg
  subst hg
  have hmean : FiniteVec.reduce_gram (FiniteVec.mk kk pts p (some g)) pts 0
      = Mat.mk (pts.rows / g) pts.cols (fun i j =>
          ∑ t ∈ Finset.range g, p.getD (i * g + t) 0 * pts.entry (i * g + t) j) := by
    refine matExt rfl rfl ?_
    funext i j
    show (∑ t ∈ Finset.range g, pts.entry (i * g + t) j * p.getD (i * g + t) 0) = _
    exact Finset.sum_congr rfl fun t _ => mul_comm _ _
  have hsqr : FiniteVec.reduce_gram (FiniteVec.mk kk pts p (some g)) (elemSq pts) 0
      = Mat.mk (pts.rows / g) pts.cols (fun i j =>
          ∑ t ∈ Finset.range g, p.getD (i * g + t) 0 * pts.entry (i * g + t) j ^ 2) := by
    refine matExt rfl rfl ?_
    funext i j
    show (∑ t ∈ Finset.range g, pts.entry (i * g + t) j ^ 2 * p.getD (i * g + t) 0) = _
    exact Finset.sum_congr rfl fun t _ => mul_comm _ _
  have hgoal : FiniteVec.get_mean_var KS (FiniteVec.mk kk pts p (some g)) true
      = (FiniteVec.reduce_gram (FiniteVec.mk kk pts p (some g)) pts 0,
         matScalarAdd (KS.var kk)
           (matSub (FiniteVec.reduce_gram (FiniteVec.mk kk pts p (some g)) (elemSq pts) 0)
             (elemSq (FiniteVec.reduce_gram (FiniteVec.mk kk pts p (some g)) pts 0)))) := rfl
  rw [hgoal, hmean, hsqr]
  refine congrArg (Prod.mk _) ?_
  refine matExt rfl rfl ?_
  funext i j
  show KS.var kk
      + ((∑ t ∈ Finset.range g, p.getD (i * g + t) 0 * pts.entry (i * g + t) j ^ 2)
        - (∑ t ∈ Finset.range g, p.getD (i * g + t) 0 * pts.entry (i * g + t) j) ^ 2)
      = _
  ring

/-- C8 witness: the test fixture - points `[[0],[1],[0],[1]]`, prefactors
`[1/2, 1/2, 1/3, 2/3]`, group size 2 (each group summing to 1). -/
theorem get_mean_var_law_witness :
    (FiniteVec.mk () (Mat.mk 4 1 (fun i _ => if i = 1 ∨ i = 3 then 1 else 0))
        [1/2, 1/2, 1/3, 2/3] (some 2) : FiniteVec Unit).pps = some 2
    ∧ (0 : ℕ) < 2 ∧ (2 : ℕ) ∣ 4
    ∧ (∀ i < 4 / 2, (∑ t ∈ Finset.range 2,
        ([1/2, 1/2, 1/3, 2/3] : List ℚ).getD (i * 2 + t) 0) = 1)
    ∧ FiniteVec.get_mean_var KSu
        (FiniteVec.mk () (Mat.mk 4 1 (fun i _ => if i = 1 ∨ i = 3 then 1 else 0))
          [1/2, 1/2, 1/3, 2/3] (some 2)) true =
      (Mat.mk (4 / 2) 1 (fun i j =>
         ∑ t ∈ Finset.range 2,
           ([1/2, 1/2, 1/3, 2/3] : List ℚ).getD (i * 2 + t) 0 *
             (Mat.mk 4 1 (fun i2 _ => if i2 = 1 ∨ i2 = 3 then 1 else 0)).entry (i * 2 + t) j),
       Mat.mk (4 / 2) 1 (fun i j =>
         KSu.var ()
         + (∑ t ∈ Finset.range 2,
             ([1/2, 1/2, 1/3, 2/3] : List ℚ).getD (i * 2 + t) 0 *
               ((Mat.mk 4 1 (fun i2 _ => if i2 = 1 ∨ i2 = 3 then 1 else 0)).entry (i * 2 + t) j) ^ 2)
         - (∑ t ∈ Finset.range 2,
             ([1/2, 1/2, 1/3, 2/3] : List ℚ).getD (i * 2 + t) 0 *
               (Mat.mk 4 1 (fun i2 _ => if i2 = 1 ∨ i2 = 3 then 1 else 0)).entry (i * 2 + t) j) ^ 2)) :=
  ⟨rfl, by decide, by decide,
    by
      intro i hi
      interval_cases i <;>
        · simp [Finset.sum_range_succ]
          norm_num,
    get_mean_var_law KSu
      (FiniteVec.mk () (Mat.mk 4 1 (fun i _ => if i = 1 ∨ i = 3 then 1 else 0))
        [1/2, 1/2, 1/3, 2/3] (some 2)) 2 rfl (by decide) (by decide) rfl
      (by
        intro i hi
        interval_cases i <;>
          · simp [Finset.sum_range_succ]
            norm_num)⟩

/-- C4: composing three kernel-compatible operators in either
association succeeds and yields operators with input basis
`C.inp_feat`, output basis `A.outp_feat`, and equal coefficient
matrices. -/
theorem multiply_assoc_ops {κ : Type} [DecidableEq κ] (KS : KernSpec κ)
    (A B C : FiniteOpData κ) (h1 : A.inp_feat.k = B.outp_feat.k)
    (h2 : B.inp_feat.k = C.outp_feat.k) :
    ∃ AB BC D1 D2 : FiniteOpData κ,
      multiply KS A B = .ok AB ∧ multiply KS AB C = .ok D1 ∧
      multiply KS B C = .ok BC ∧ multiply KS A BC = .ok D2 ∧
      D1.inp_feat = C.inp_feat ∧ D1.outp_feat = A.outp_feat ∧
      D2.inp_feat = C.inp_feat ∧ D2.outp_feat = A.outp_feat ∧
      D1.matr = D2.matr := by
  refine ⟨FiniteOpData.mk B.inp_feat A.outp_feat
      (matMul (matMul A.matr (innerFull KS A.inp_feat B.outp_feat)) B.matr),
    FiniteOpData.mk C.inp_feat B.outp_feat
      (matMul (matMul B.matr (innerFull KS B.inp_feat C.outp_feat)) C.matr),
    FiniteOpData.mk C.inp_feat A.outp_feat
      (matMul (matMul
        (matMul (matMul A.matr (innerFull KS A.inp_feat B.outp_feat)) B.matr)
        (innerFull KS B.inp_feat C.outp_feat)) C.matr),
    FiniteOpData.mk C.inp_feat A.outp_feat
      (matMul (matMul A.matr (innerFull KS A.inp_feat B.outp_feat))
        (matMul (matMul B.matr (innerFull KS B.inp_feat C.outp_feat)) C.matr)),
    by simp [multiply, h1], by simp [multiply, h2], by simp [multiply, h2],
    by simp [multiply, h1], rfl, rfl, rfl, rfl, ?_⟩
  show matMul (matMul
      (matMul (matMul A.matr (innerFull KS A.inp_feat B.outp_feat)) B.matr)
      (innerFull KS B.inp_feat C.outp_feat)) C.matr
    = matMul (matMul A.matr (innerFull KS A.inp_feat B.outp_feat))
      (matMul (matMul B.matr (innerFull KS B.inp_feat C.outp_feat)) C.matr)
  simp only [matMul_assoc]

/-- C4 witness: three one-point identity-style operators over the
concrete kernel. -/
theorem multiply_assoc_ops_witness :
    vOnePoint.k = vOnePoint.k ∧
    ∃ AB BC D1 D2 : FiniteOpData Unit,
      multiply KSu (FiniteOpData.mk vOnePoint vOnePoint (eye 1))
          (FiniteOpData.mk vOnePoint vOnePoint (eye 1)) = .ok AB ∧
      multiply KSu AB (FiniteOpData.mk vOnePoint vOnePoint (eye 1)) = .ok D1 ∧
      multiply KSu (FiniteOpData.mk vOnePoint vOnePoint (eye 1))
          (FiniteOpData.mk vOnePoint vOnePoint (eye 1)) = .ok BC ∧
      multiply KSu (FiniteOpData.mk vOnePoint vOnePoint (eye 1)) BC = .ok D2 ∧
      D1.inp_feat = (FiniteOpData.mk vOnePoint vOnePoint (eye 1)).inp_feat ∧
      D1.outp_feat = (FiniteOpData.mk vOnePoint vOnePoint (eye 1)).outp_feat ∧
      D2.inp_feat = (FiniteOpData.mk vOnePoint vOnePoint (eye 1)).inp_feat ∧
      D2.outp_feat = (FiniteOpData.mk vOnePoint vOnePoint (eye 1)).outp_feat ∧
      D1.matr = D2.matr :=
  ⟨rfl, multiply_assoc_ops KSu (FiniteOpData.mk vOnePoint vOnePoint (eye 1))
    (FiniteOpData.mk vOnePoint vOnePoint (eye 1))
    (FiniteOpData.mk vOnePoint vOnePoint (eye 1)) rfl rfl⟩

/-- C3: for a `CovOp` at heap address `i` with no memoised inverse yet
(its basis simple with matching prefactor length, as the `CovOp`
constructor guarantees), the first `inv()` allocates the inverse at a
fresh address `j = h.length` with its own `_inv` back-reference set to
`i`, and the second `inv()` returns address `i` itself - the very same
operator object - without touching the heap; the object at `i` still
carries its original coefficient matrix. -/
theorem covop_inv_involution {κ : Type} (f : Mat → Mat) (KS : KernSpec κ)
    (h : List (CovOpData κ)) (i : ℕ) (c : CovOpData κ)
    (hc : h[i]? = some c) (hni : c.inv_ref = none)
    (hsimple : c.inp_feat.pps = none)
    (hlen : c.inp_feat.prefactors.length = c.inp_feat.points.rows) :
    ∃ (h1 : List (CovOpData κ)) (j : ℕ) (d c2 : CovOpData κ),
      covInv f KS h i = some (h1, j) ∧ j = h.length ∧
      covInv f KS h1 j = some (h1, i) ∧
      h1[j]? = some d ∧ d.inv_ref = some i ∧
      h1[i]? = some c2 ∧ c2.matr = c.matr := by
  have hi : i < h.length := (List.getElem?_eq_some.mp hc).1
  obtain ⟨⟨vk, vpts, vpref, vpps⟩, outp, cmatr, cregul, cinv⟩ := c
  simp only at hni hsimple hlen
  subst hni
  subst hsimple
  have hmk : CovOp.make (FiniteVec.mk vk vpts vpref none) cregul =
      some (CovOpData.mk
        (FiniteVec.mk vk vpts (List.replicate vpts.rows 1) none)
        (FiniteVec.mk vk vpts (List.replicate vpts.rows 1) none)
        (diagMat vpref) cregul none) := by
    simp [CovOp.make, FiniteVec.updated, FiniteVec.make, FiniteVec.len, hlen]
  have hstep1 : covInv f KS h i =
      some ((h.set i (CovOpData.mk (FiniteVec.mk vk vpts vpref none) outp cmatr cregul
          (some h.length))) ++
        [CovOpData.mk
          (FiniteVec.mk vk vpts (List.replicate vpts.rows 1) none)
          (FiniteVec.mk vk vpts (List.replicate vpts.rows 1) none)
          (covInvMat f KS
            (CovOpData.mk (FiniteVec.mk vk vpts vpref none) outp cmatr cregul none))
          cregul (some i)], h.length) := by
    simp only [covInv, hc, hmk]
  have hj : ((h.set i (CovOpData.mk (FiniteVec.mk vk vpts vpref none) outp cmatr cregul
        (some h.length))) ++
      [CovOpData.mk
        (FiniteVec.mk vk vpts (List.replicate vpts.rows 1) none)
        (FiniteVec.mk vk vpts (List.replicate vpts.rows 1) none)
        (covInvMat f KS
          (CovOpData.mk (FiniteVec.mk vk vpts vpref none) outp cmatr cregul none))
        cregul (some i)])[h.length]? =
      some (CovOpData.mk
        (FiniteVec.mk vk vpts (List.replicate vpts.rows 1) none)
        (FiniteVec.mk vk vpts (List.replicate vpts.rows 1) none)
        (covInvMat f KS
          (CovOpData.mk (FiniteVec.mk vk vpts vpref none) outp cmatr cregul none))
        cregul (some i)) := by
    have hcat := List.getElem?_concat_length
      (h.set i (CovOpData.mk (FiniteVec.mk vk vpts vpref none) outp cmatr cregul
        (some h.length)))
      (CovOpData.mk
        (FiniteVec.mk vk vpts (List.replicate vpts.rows 1) none)
        (FiniteVec.mk vk vpts (List.replicate vpts.rows 1) none)
        (covInvMat f KS
          (CovOpData.mk (FiniteVec.mk vk vpts vpref none) outp cmatr cregul none))
        cregul (some i))
    rw [List.length_set] at hcat
    exact hcat
  have hi2 : ((h.set i (CovOpData.mk (FiniteVec.mk vk vpts vpref none) outp cmatr cregul
        (some h.length))) ++
      [CovOpData.mk
        (FiniteVec.mk vk vpts (List.replicate vpts.rows 1) none)
        (FiniteVec.mk vk vpts (List.replicate vpts.rows 1) none)
        (covInvMat f KS
          (CovOpData.mk (FiniteVec.mk vk vpts vpref none) outp cmatr cregul none))
        cregul (some i)])[i]? =
      some (CovOpData.mk (FiniteVec.mk vk vpts vpref none) outp cmatr cregul
        (some h.length)) := by
    rw [List.getElem?_append_left (by simpa using hi)]
    simp [List.getElem?_set_self', List.getElem?_eq_getElem hi]
  refine ⟨_, h.length, _, _, hstep1, rfl, ?_, hj, rfl, hi2, rfl⟩
  simp only [covInv, hj]

/-- C3 witness: a one-element heap holding a `CovOp` over the one-point
basis, with the identity standing in for `np.linalg.inv`. -/
theorem covop_inv_involution_witness :
    ([CovOpData.mk vOnePoint vOnePoint (Mat.mk 1 1 (fun _ _ => 5)) (1/100) none] :
        List (CovOpData Unit))[0]? =
      some (CovOpData.mk vOnePoint vOnePoint (Mat.mk 1 1 (fun _ _ => 5)) (1/100) none)
    ∧ (CovOpData.mk vOnePoint vOnePoint (Mat.mk 1 1 (fun _ _ => 5)) (1/100)
        (none : Option ℕ)).inv_ref = none
    ∧ ∃ (h1 : List (CovOpData Unit)) (j : ℕ) (d c2 : CovOpData Unit),
        covInv (fun m => m) KSu
          [CovOpData.mk vOnePoint vOnePoint (Mat.mk 1 1 (fun _ _ => 5)) (1/100) none] 0
          = some (h1, j)
        ∧ j = ([CovOpData.mk vOnePoint vOnePoint (Mat.mk 1 1 (fun _ _ => 5)) (1/100) none] :
            List (CovOpData Unit)).length
        ∧ covInv (fun m => m) KSu h1 j = some (h1, 0)
        ∧ h1[j]? = some d ∧ d.inv_ref = some 0
        ∧ h1[0]? = some c2
        ∧ c2.matr = (CovOpData.mk vOnePoint vOnePoint (Mat.mk 1 1 (fun _ _ => 5)) (1/100)
            (none : Option ℕ)).matr :=
  ⟨rfl, rfl,
    covop_inv_involution (fun m => m) KSu
      [CovOpData.mk vOnePoint vOnePoint (Mat.mk 1 1 (fun _ _ => 5)) (1/100) none] 0
      (CovOpData.mk vOnePoint vOnePoint (Mat.mk 1 1 (fun _ _ => 5)) (1/100) none)
      rfl rfl rfl rfl⟩

/-- C5 (counterexample): with exactly one of the two flags set, `HsTo`
construction fails with a `TypeError` instead of assigning the claimed
regularized inverse Gram coefficient matrix. -/
theorem hsto_oneflag_counterexample :
    HsTo.make (fun m => m) KSu vOnePoint vOnePoint (1/100) true false
      = .error .typeError := rfl

/-- C5 (amended): whenever exactly one of `embedded`, `koopman` is true
(and the two bases share a kernel, so the preceding assert passes),
`HsTo.__init__` raises a `TypeError` while evaluating
`timelagged_feat * regul` - vectors have no scalar multiplication - so
no coefficient matrix is ever set in that mode. -/
theorem hsto_oneflag_typeerror {κ : Type} [DecidableEq κ]
    (pinv : Mat → Mat) (KS : KernSpec κ) (s t : FiniteVec κ) (regul : ℚ)
    (embedded koopman : Bool) (hk : s.k = t.k)
    (hx : (embedded = true ∧ koopman = false) ∨
      (embedded = false ∧ koopman = true)) :
    HsTo.make pinv KS s t regul embedded koopman = .error .typeError := by
  unfold HsTo.make
  rw [if_pos hk, if_pos hx]

/-- C5 witness: the amended theorem at `embedded = true`,
`koopman = false` over the concrete fixture. -/
theorem hsto_oneflag_typeerror_witness :
    vOnePoint.k = vOnePoint.k
    ∧ (((true : Bool) = true ∧ (false : Bool) = false) ∨
        ((true : Bool) = false ∧ (false : Bool) = true))
    ∧ HsTo.make (fun m => m) KSu vOnePoint vOnePoint (1/100) true false
        = .error .typeError :=
  ⟨rfl, Or.inl ⟨rfl, rfl⟩,
    hsto_oneflag_typeerror (fun m => m) KSu vOnePoint vOnePoint (1/100)
      true false rfl (Or.inl ⟨rfl, rfl⟩)⟩

/-- C9: `distr_estimate_optimization` raises its runtime error exactly
when the solver reports failure; on success it returns the solver's
solution normalised to sum 1; the bounds it passes are an elementwise
lower bound of 0 with no upper bound, so for any solver honouring its
bounds the returned prefactors are non-negative; and the initialisation
handed to the solver is positive in every coordinate whenever the
randomness stream is non-negative (as `rand()` is). -/
theorem distr_estimate_spec {κ : Type} (s : Solver) (logF : ℚ → ℚ)
    (gradF : (List ℚ → ℚ) → List ℚ → List ℚ) (KS : KernSpec κ) (kern : κ)
    (pts : Mat) (rand : ℕ → ℚ) (estimate : Estimate)
    (hb : RespectsBounds s) (hr : ∀ t, 0 ≤ rand t) :
    ((distr_estimate_optimization s logF gradF KS kern pts rand estimate
        = .error .runtimeError)
      ↔ (destRun s logF gradF KS kern pts rand estimate).2 = false)
    ∧ ((destRun s logF gradF KS kern pts rand estimate).2 = true →
        distr_estimate_optimization s logF gradF KS kern pts rand estimate
          = .ok ((destRun s logF gradF KS kern pts rand estimate).1.map
              (fun x => x / (destRun s logF gradF KS kern pts rand estimate).1.sum)))
    ∧ destBounds pts = List.replicate pts.rows ((some 0 : Option ℚ), (none : Option ℚ))
    ∧ (∀ L, distr_estimate_optimization s logF gradF KS kern pts rand estimate
          = .ok L → ∀ q ∈ L, 0 ≤ q)
    ∧ (∀ q ∈ destInit pts rand, 0 < q) := by
  have hbApplied := hb (destCost logF KS kern pts estimate) (destInit pts rand)
    (gradF (destCost logF KS kern pts estimate)) (destBounds pts)
  have hnn : ∀ a ∈ (destRun s logF gradF KS kern pts rand estimate).1, (0 : ℚ) ≤ a := by
    intro a ha
    obtain ⟨t, hgt⟩ := List.mem_iff_getElem?.mp ha
    have htlen : t < (destRun s logF gradF KS kern pts rand estimate).1.length :=
      (List.getElem?_eq_some.mp hgt).1
    have htb : t < pts.rows := by
      have := hbApplied.1
      simp only [destRun] at htlen ⊢
      rw [this, destBounds, List.length_replicate] at htlen
      exact htlen
    have hbt : (destBounds pts)[t]? = some ((some 0 : Option ℚ), (none : Option ℚ)) := by
      simp [destBounds, List.getElem?_replicate, htb]
    have hle := hbApplied.2 t 0 none hbt
    rw [List.getD_eq_getElem?_getD] at hle
    simp only [destRun] at hgt
    rw [hgt] at hle
    simpa using hle
  refine ⟨?_, ?_, rfl, ?_, ?_⟩
  · cases hres : (destRun s logF gradF KS kern pts rand estimate).2
    · simp [distr_estimate_optimization, hres]
    · simp [distr_estimate_optimization, hres]
  · intro h2
    simp [distr_estimate_optimization, h2]
  · intro L hL q hq
    have hsucc : (destRun s logF gradF KS kern pts rand estimate).2 = true := by
      cases hres : (destRun s logF gradF KS kern pts rand estimate).2
      · rw [distr_estimate_optimization, hres] at hL
        simp at hL
      · rfl
    rw [distr_estimate_optimization, hsucc] at hL
    simp only [if_true] at hL
    obtain rfl : ((destRun s logF gradF KS kern pts rand estimate).1.map
        (fun x => x / (destRun s logF gradF KS kern pts rand estimate).1.sum)) = L :=
      by injection hL
    obtain ⟨a, ha, rfl⟩ := List.mem_map.mp hq
    exact div_nonneg (hnn a ha) (List.sum_nonneg hnn)
  · intro q hq
    obtain ⟨t, _, rfl⟩ := List.mem_map.mp hq
    have : (0 : ℚ) < 1 / 10000 := by norm_num
    linarith [hr t]

/-- C9 witness: a solver that returns each coordinate's lower bound and
reports success, on the two-point fixture with the zero randomness
stream. -/
theorem distr_estimate_spec_witness :
    (RespectsBounds (Solver.mk (fun _ _ _ b => (b.map (fun q => q.1.getD 0), true))))
    ∧ (∀ t : ℕ, (0 : ℚ) ≤ (fun _ : ℕ => (0 : ℚ)) t)
    ∧ (((distr_estimate_optimization
          (Solver.mk (fun _ _ _ b => (b.map (fun q => q.1.getD 0), true)))
          (fun q => q) (fun _ x => x) KSu () pTwo (fun _ => 0) Estimate.support
          = .error .runtimeError)
        ↔ (destRun (Solver.mk (fun _ _ _ b => (b.map (fun q => q.1.getD 0), true)))
            (fun q => q) (fun _ x => x) KSu () pTwo (fun _ => 0) Estimate.support).2 = false)
      ∧ ((destRun (Solver.mk (fun _ _ _ b => (b.map (fun q => q.1.getD 0), true)))
            (fun q => q) (fun _ x => x) KSu () pTwo (fun _ => 0) Estimate.support).2 = true →
          distr_estimate_optimization
            (Solver.mk (fun _ _ _ b => (b.map (fun q => q.1.getD 0), true)))
            (fun q => q) (fun _ x => x) KSu () pTwo (fun _ => 0) Estimate.support
            = .ok ((destRun (Solver.mk (fun _ _ _ b => (b.map (fun q => q.1.getD 0), true)))
                (fun q => q) (fun _ x => x) KSu () pTwo (fun _ => 0) Estimate.support).1.map
                  (fun x => x / (destRun (Solver.mk (fun _ _ _ b =>
                    (b.map (fun q => q.1.getD 0), true)))
                    (fun q => q) (fun _ x => x) KSu () pTwo (fun _ => 0)
                    Estimate.support).1.sum)))
      ∧ destBounds pTwo = List.replicate pTwo.rows ((some 0 : Option ℚ), (none : Option ℚ))
      ∧ (∀ L, distr_estimate_optimization
            (Solver.mk (fun _ _ _ b => (b.map (fun q => q.1.getD 0), true)))
            (fun q => q) (fun _ x => x) KSu () pTwo (fun _ => 0) Estimate.support
            = .ok L → ∀ q ∈ L, 0 ≤ q)
      ∧ (∀ q ∈ destInit pTwo (fun _ => 0), 0 < q)) :=
  ⟨by
    intro c i j b
    refine ⟨List.length_map b _, ?_⟩
    intro t l u hbt
    have hm : (b.map (fun q => q.1.getD 0))[t]? = some l := by
      rw [List.getElem?_map, hbt]
      rfl
    rw [List.getD_eq_getElem?_getD, hm]
    exact le_rfl,
  fun _ => le_rfl,
  distr_estimate_spec (Solver.mk (fun _ _ _ b => (b.map (fun q => q.1.getD 0), true)))
    (fun q => q) (fun _ x => x) KSu () pTwo (fun _ => 0) Estimate.support
    (by
      intro c i j b
      refine ⟨List.length_map b _, ?_⟩
      intro t l u hbt
      have hm : (b.map (fun q => q.1.getD 0))[t]? = some l := by
        rw [List.getElem?_map, hbt]
        rfl
      rw [List.getD_eq_getElem?_getD, hm]
      exact le_rfl)
    (fun _ => le_rfl)⟩

end JaxRK
